import Mathlib

/-!
Verification of the review-rhythm heatmap component
(src/my-app/src/components/ReviewRhythm.js) of the YelpApp dashboard.

The component is embedded shallowly:

* the `data.data` JSON object, after the JS `parseInt` on its keys, is an
  association list from day key (Int) to an association list from hour key
  (Int) to a review count (Nat);
* the JS `Map` built by the processing loop is the list of its `set` calls
  in program order, with a last-write-wins lookup (`mapGet`);
* the d3 linear color scale with `clamp(true)` is a per-channel linear
  interpolation of a clamped fraction over ℚ;
* the React `useState` hover cell is an explicit state machine: mounting
  initialises it to `none`, pointer events overwrite it, and a re-render
  with new props leaves it unchanged (React keeps state across
  prop-driven re-renders of a mounted instance).
-/

/-- Layout constant from the source: space between cells (`CELL_PADDING`). -/
def CELL_PADDING : ℚ := 1

/-- Layout constant from the source: size of each cell (`CELL_SIZE`). -/
def CELL_SIZE : ℚ := 18

/-- Layout constant from the source: space for day labels (`Y_AXIS_WIDTH`). -/
def Y_AXIS_WIDTH : ℚ := 40

/-- Layout constant from the source: space for hour labels (`X_AXIS_HEIGHT`). -/
def X_AXIS_HEIGHT : ℚ := 30

/-- The seven day labels, Monday-first, as in the source `daysOfWeek`. -/
def daysOfWeek : List String := ["Mon", "Tue", "Wed", "Thu", "Fri", "Sat", "Sun"]

/-- `hoursOfDay = Array.from({length: 24}, (_, i) => i)`: the hours 0..23. -/
def hoursOfDay : List Nat := List.range 24

/-- The `data.data` object after JS `parseInt` on its keys: an association
list from day key to an association list from hour key to count.  JS object
iteration is in insertion order, which the list order models. -/
abbrev RawRhythmInput := List (Int × List (Int × Nat))

/-- The `data` prop of the component: it may be null, and its `data` field
may be absent or null. -/
structure RhythmProp where
  data : Option RawRhythmInput
  deriving DecidableEq

/-- One iteration of the inner processing loop for a fixed day key `dk`:
`processedDataMap.set([dk - 1, hour], count)` for each hour entry, in order. -/
def hmapOf (dk : Int) (hs : List (Int × Nat)) : List ((Int × Int) × Nat) :=
  hs.map (fun he => ((dk - 1, he.1), he.2))

/-- The full sequence of `processedDataMap.set` calls of the processing loop,
in program order.  The JS map key is the string `(day-1) + "-" + hour`,
which is injective on the pair of parsed integers, so the pair itself is
used as the key. -/
def processedDataMap (input : RawRhythmInput) : List ((Int × Int) × Nat) :=
  input.bind (fun e => hmapOf e.1 e.2)

/-- Replay of the `set` calls in `m` starting from a previous lookup result
`acc`: a later `set` for the key overwrites an earlier one. -/
def mapGetFrom (acc : Option Nat) (m : List ((Int × Int) × Nat)) (k : Int × Int) :
    Option Nat :=
  m.foldl (fun a e => if e.1 = k then some e.2 else a) acc

/-- `Map.get`: the value of the last `set` for key `k`, or `none` when the
key was never set. -/
def mapGet (m : List ((Int × Int) × Nat)) (k : Int × Int) : Option Nat :=
  mapGetFrom none m k

/-- The `maxValue` accumulator of the processing loop:
`if (count > maxValue) maxValue = count`, starting from 0. -/
def maxValue (input : RawRhythmInput) : Nat :=
  input.foldl
    (fun mv e => e.2.foldl (fun mv' he => if he.2 > mv' then he.2 else mv') mv) 0

/-- The upper end of the color domain:
`colorScale.domain([0, Math.max(maxValue, 1)])`. -/
def domainHi (input : RawRhythmInput) : Nat := max (maxValue input) 1

/-- An RGB color with rational channels. -/
structure RGB where
  r : ℚ
  g : ℚ
  b : ℚ
  deriving DecidableEq

/-- The low endpoint of the scale range: the hex color 282828. -/
def colorC0 : RGB := ⟨40, 40, 40⟩

/-- The high endpoint of the scale range: the hex color 1DB954. -/
def colorC1 : RGB := ⟨29, 185, 84⟩

/-- Per-channel linear interpolation between two channel values. -/
def interpolate (a b t : ℚ) : ℚ := a + t * (b - a)

/-- The d3 `scaleLinear().range([colorC0, colorC1]).clamp(true)` scale with
domain `[0, hi]`: the fraction `c / hi` is clamped to `[0, 1]` and each
channel is interpolated linearly. -/
def colorScaleAt (hi : ℚ) (c : ℚ) : RGB :=
  ⟨interpolate colorC0.r colorC1.r (max 0 (min 1 (c / hi))),
   interpolate colorC0.g colorC1.g (max 0 (min 1 (c / hi))),
   interpolate colorC0.b colorC1.b (max 0 (min 1 (c / hi)))⟩

/-- A cell of the dense grid: `{ day, hour, count }` with zero-based day. -/
structure RhythmCell where
  day : Nat
  hour : Nat
  count : Nat
  deriving DecidableEq

/-- The count rendered for grid position (day, hour):
`processedDataMap.get(dayIndex + "-" + hour) || 0`. -/
def cellCount (input : RawRhythmInput) (day hour : Nat) : Nat :=
  (mapGet (processedDataMap input) ((day : Int), (hour : Int))).getD 0

/-- The cell render loop: `daysOfWeek.map((_, dayIndex) => hoursOfDay.map(hour => rect))`,
producing one cell per (dayIndex, hour) with the looked-up count. -/
def renderCells (input : RawRhythmInput) : List RhythmCell :=
  (List.range 7).bind (fun dayIndex =>
    (List.range 24).map (fun hour => ⟨dayIndex, hour, cellCount input dayIndex hour⟩))

/-- The (day, hour) index pairs of the dense grid, in render order. -/
def gridPairs : List (Nat × Nat) :=
  (List.range 7).bind (fun d => (List.range 24).map (fun h => (d, h)))

/-- The `hoveredCell` state: at most one hovered cell, or `none`. -/
abbrev HoverState := Option RhythmCell

/-- The pointer events wired to each cell rect. -/
inductive HoverEvent where
  | mouseEnter (day hour count : Nat)
  | mouseLeave
  deriving DecidableEq

/-- The hover handlers: `onMouseEnter` calls
`setHoveredCell({day, hour, count})`, overwriting any previous value;
`onMouseLeave` calls `setHoveredCell(null)`. -/
def hoverStep (_s : HoverState) : HoverEvent → HoverState
  | .mouseEnter d h c => some ⟨d, h, c⟩
  | .mouseLeave => none

/-- Absolute x of the left edge of a cell: the group transform
`translate(Y_AXIS_WIDTH, X_AXIS_HEIGHT)` plus the rect `x = hour * (CELL_SIZE + CELL_PADDING)`. -/
def cellLeft (hour : Nat) : ℚ := Y_AXIS_WIDTH + (hour : ℚ) * (CELL_SIZE + CELL_PADDING)

/-- Absolute y of the top edge of a cell: the group transform plus the rect
`y = dayIndex * (CELL_SIZE + CELL_PADDING)`. -/
def cellTop (day : Nat) : ℚ := X_AXIS_HEIGHT + (day : ℚ) * (CELL_SIZE + CELL_PADDING)

/-- `renderTooltip`: `null` when nothing is hovered; otherwise the anchor
`(xPos, yPos)` with
`xPos = Y_AXIS_WIDTH + hour * (CELL_SIZE + CELL_PADDING) + CELL_SIZE / 2` and
`yPos = X_AXIS_HEIGHT + day * (CELL_SIZE + CELL_PADDING) - 10`. -/
def renderTooltip (hovered : HoverState) : Option (ℚ × ℚ) :=
  match hovered with
  | none => none
  | some cell =>
      some (Y_AXIS_WIDTH + (cell.hour : ℚ) * (CELL_SIZE + CELL_PADDING) + CELL_SIZE / 2,
            X_AXIS_HEIGHT + (cell.day : ℚ) * (CELL_SIZE + CELL_PADDING) - 10)

/-- The X-axis label loop: for each hour with `hour % 3 === 0`, a label whose
absolute x is the group transform `translate(Y_AXIS_WIDTH, 0)` plus the text
`x = hour * (CELL_SIZE + CELL_PADDING) + CELL_SIZE / 2`. -/
def xAxisLabels : List (Nat × ℚ) :=
  (List.range 24).filterMap (fun hour =>
    if hour % 3 == 0 then
      some (hour, Y_AXIS_WIDTH + (hour : ℚ) * (CELL_SIZE + CELL_PADDING) + CELL_SIZE / 2)
    else none)

/-- What one render of the component produces: either the fallback paragraph
or the heatmap (cells, hour labels, and optional tooltip anchor). -/
inductive RenderOutput where
  | fallback (msg : String)
  | widget (cells : List RhythmCell) (hourLabels : List (Nat × ℚ))
      (tooltip : Option (ℚ × ℚ))
  deriving DecidableEq

/-- Whether a render output is the heatmap widget. -/
def rendersWidget : RenderOutput → Bool
  | .widget _ _ _ => true
  | .fallback _ => false

/-- The fallback paragraph text. -/
def fallbackMessage : String := "Review rhythm data is not available."

/-- The component body: the guard
`if (!data || !data.data || Object.keys(data.data).length === 0)` returns the
fallback paragraph, otherwise the grid, hour labels and tooltip are rendered. -/
def reviewRhythm (dataProp : Option RhythmProp) (hoveredCell : HoverState) :
    RenderOutput :=
  match dataProp with
  | none => .fallback fallbackMessage
  | some p =>
      match p.data with
      | none => .fallback fallbackMessage
      | some d =>
          if d.isEmpty then .fallback fallbackMessage
          else .widget (renderCells d) xAxisLabels (renderTooltip hoveredCell)

/-- The state of one mounted instance of the component: its current props
and its `useState` hover cell. -/
structure ComponentState where
  dataProp : Option RhythmProp
  hoveredCell : HoverState
  deriving DecidableEq

/-- Events a mounted instance reacts to: a re-render with new props, and the
two pointer events. -/
inductive ComponentEvent where
  | updateProps (p : Option RhythmProp)
  | mouseEnter (day hour count : Nat)
  | mouseLeave
  deriving DecidableEq

/-- Mounting the component: `useState(null)` initialises the hover cell to
`none`. -/
def mountComponent (p : Option RhythmProp) : ComponentState := ⟨p, none⟩

/-- React semantics of one event on a mounted instance: `useState` state
persists across prop-driven re-renders (the initial value applies only at
mount, and no effect or key remount resets it in the source), while the two
pointer handlers overwrite it. -/
def componentStep (s : ComponentState) : ComponentEvent → ComponentState
  | .updateProps p => { s with dataProp := p }
  | .mouseEnter d h c => { s with hoveredCell := some ⟨d, h, c⟩ }
  | .mouseLeave => { s with hoveredCell := none }

/-- Spec-side lookup into the raw input: the count stored under day key `dk`
and hour key `hk`, if present. -/
def inputLookup (input : RawRhythmInput) (dk hk : Int) : Option Nat :=
  match input.find? (fun e => e.1 == dk) with
  | none => none
  | some e => (e.2.find? (fun he => he.1 == hk)).map (·.2)

/-- Every count appearing anywhere in the input, in order. -/
def allCounts (input : RawRhythmInput) : List Nat :=
  input.bind (fun e => e.2.map (·.2))

/-- A day key in the range the API contract promises: 1..7. -/
def dayInRange (dk : Int) : Bool := decide (1 ≤ dk) && decide (dk ≤ 7)

/-- An hour key in the range the API contract promises: 0..23. -/
def hourInRange (hk : Int) : Bool := decide (0 ≤ hk) && decide (hk ≤ 23)

/-- The input restricted to its in-range entries: days outside 1..7 dropped,
and within each kept day the hours outside 0..23 dropped. -/
def inRangeEntries (input : RawRhythmInput) : RawRhythmInput :=
  (input.filter (fun e => dayInRange e.1)).map
    (fun e => (e.1, e.2.filter (fun he => hourInRange he.1)))

/-- A valid RawRhythmInput in the sense of the spec data model: day keys
distinct and in 1..7, hour keys within each day distinct and in 0..23. -/
structure ValidInput (input : RawRhythmInput) : Prop where
  days_nodup : (input.map (·.1)).Nodup
  days_range : ∀ e ∈ input, dayInRange e.1 = true
  hours_nodup : ∀ e ∈ input, (e.2.map (·.1)).Nodup
  hours_range : ∀ e ∈ input, ∀ he ∈ e.2, hourInRange he.1 = true

/-- Concrete input: the spec scenario `{"1": {"9": 5}}`. -/
def exInput : RawRhythmInput := [(1, [(9, 5)])]

/-- Concrete input with one out-of-range day key: `{"8": {"0": 5}}`. -/
def badDayInput : RawRhythmInput := [(8, [(0, 5)])]

/-- Concrete input with two out-of-range day keys:
`{"8": {"0": 5}, "9": {"0": 7}}`. -/
def badPairInput : RawRhythmInput := [(8, [(0, 5)]), (9, [(0, 7)])]

/-- Concrete input mixing an out-of-range day entry of count 10 with an
in-range entry of count 5: `{"8": {"0": 10}, "1": {"9": 5}}`. -/
def mixedInput : RawRhythmInput := [(8, [(0, 10)]), (1, [(9, 5)])]

/-- Concrete prop used in the hover-reset scenario. -/
def propA : RhythmProp := ⟨some [(1, [(9, 5)])]⟩

/-- A second, different concrete prop used in the hover-reset scenario. -/
def propB : RhythmProp := ⟨some [(2, [(3, 4)])]⟩

/-! ## Helper lemmas -/

theorem mapGetFrom_cons (acc : Option Nat) (x : (Int × Int) × Nat)
    (m : List ((Int × Int) × Nat)) (k : Int × Int) :
    mapGetFrom acc (x :: m) k = mapGetFrom (if x.1 = k then some x.2 else acc) m k :=
  rfl

theorem mapGetFrom_append (acc : Option Nat) (a b : List ((Int × Int) × Nat))
    (k : Int × Int) :
    mapGetFrom acc (a ++ b) k = mapGetFrom (mapGetFrom acc a k) b k := by
  simp [mapGetFrom, List.foldl_append]

theorem mapGetFrom_no_match (m : List ((Int × Int) × Nat)) (k : Int × Int) :
    ∀ acc, (∀ e ∈ m, e.1 ≠ k) → mapGetFrom acc m k = acc := by
  induction m with
  | nil => intro acc _; rfl
  | cons x m ih =>
      intro acc h
      rw [mapGetFrom_cons, if_neg (h x (List.mem_cons_self x m))]
      exact ih _ (fun e he => h e (List.mem_cons_of_mem x he))

theorem processedDataMap_cons (e : Int × List (Int × Nat)) (input : RawRhythmInput) :
    processedDataMap (e :: input) = hmapOf e.1 e.2 ++ processedDataMap input := by
  simp [processedDataMap, List.cons_bind]

theorem mem_processedDataMap (input : RawRhythmInput) (x : (Int × Int) × Nat)
    (hx : x ∈ processedDataMap input) :
    ∃ en ∈ input, ∃ hen ∈ en.2, x = ((en.1 - 1, hen.1), hen.2) := by
  rw [processedDataMap, List.mem_bind] at hx
  obtain ⟨en, hen, h2⟩ := hx
  rw [hmapOf, List.mem_map] at h2
  obtain ⟨hen2, hh, rfl⟩ := h2
  exact ⟨en, hen, hen2, hh, rfl⟩

/-! ## C2: missing-data guard -/

/-- C2: when the data prop is absent/null, when its `data` field is
absent/null, and when the `data` object is empty, the component renders the
textual fallback (so no grid and no tooltip are produced, and, the embedding
being total, no error is thrown). -/
theorem claim_C2_fallback (hovered : HoverState) :
    reviewRhythm none hovered = .fallback fallbackMessage ∧
    reviewRhythm (some ⟨none⟩) hovered = .fallback fallbackMessage ∧
    reviewRhythm (some ⟨some []⟩) hovered = .fallback fallbackMessage ∧
    rendersWidget (reviewRhythm (some ⟨some []⟩) hovered) = false :=
  ⟨rfl, rfl, rfl, rfl⟩

/-! ## C3: the color-domain maximum -/

theorem foldl_count_max (l : List (Int × Nat)) (a : Nat) :
    l.foldl (fun mv' he => if he.2 > mv' then he.2 else mv') a =
      (l.map (·.2)).foldl max a := by
  induction l generalizing a with
  | nil => rfl
  | cons he l ih =>
      simp only [List.foldl_cons, List.map_cons]
      rw [ih]
      rcases Nat.lt_or_ge a he.2 with h | h
      · rw [if_pos h, Nat.max_eq_right (le_of_lt h)]
      · rw [if_neg (by omega), Nat.max_eq_left h]

theorem maxValue_eq_foldl (input : RawRhythmInput) :
    maxValue input = (allCounts input).foldl max 0 := by
  suffices h : ∀ a : Nat,
      input.foldl
        (fun mv e => e.2.foldl (fun mv' he => if he.2 > mv' then he.2 else mv') mv) a =
      (allCounts input).foldl max a from h 0
  induction input with
  | nil => intro a; rfl
  | cons e input ih =>
      intro a
      simp only [List.foldl_cons]
      rw [foldl_count_max, ih]
      simp [allCounts, List.cons_bind, List.foldl_append]

/-- C3: the maximum of the color domain is `max(1, max of all input counts)`,
and in particular it is always at least 1. -/
theorem claim_C3_domain_max (input : RawRhythmInput) :
    domainHi input = max 1 ((allCounts input).foldl max 0) ∧ 1 ≤ domainHi input := by
  constructor
  · rw [domainHi, maxValue_eq_foldl, Nat.max_comm]
  · exact le_max_right _ 1

/-! ## C4: clamped color interpolation -/

theorem interpolate_between (a b t : ℚ) (h0 : 0 ≤ t) (h1 : t ≤ 1) :
    min a b ≤ interpolate a b t ∧ interpolate a b t ≤ max a b := by
  rcases le_total a b with hab | hab
  · rw [min_eq_left hab, max_eq_right hab]
    constructor
    · have h := mul_nonneg h0 (by linarith : (0 : ℚ) ≤ b - a)
      simp only [interpolate]
      linarith
    · have h : t * (b - a) ≤ 1 * (b - a) :=
        mul_le_mul_of_nonneg_right h1 (by linarith)
      simp only [interpolate]
      linarith
  · rw [min_eq_right hab, max_eq_left hab]
    constructor
    · have h : t * (a - b) ≤ 1 * (a - b) :=
        mul_le_mul_of_nonneg_right h1 (by linarith)
      simp only [interpolate]
      linarith
    · have h := mul_nonneg h0 (by linarith : (0 : ℚ) ≤ a - b)
      simp only [interpolate]
      linarith

/-- C4: for any input and any count (rational, in particular outside
`[0, maxCount]`), every channel of the color returned by the clamped scale
lies between the corresponding channels of the two endpoint colors. -/
theorem claim_C4_clamped (input : RawRhythmInput) (c : ℚ) :
    (min colorC0.r colorC1.r ≤ (colorScaleAt (domainHi input : ℚ) c).r ∧
      (colorScaleAt (domainHi input : ℚ) c).r ≤ max colorC0.r colorC1.r) ∧
    (min colorC0.g colorC1.g ≤ (colorScaleAt (domainHi input : ℚ) c).g ∧
      (colorScaleAt (domainHi input : ℚ) c).g ≤ max colorC0.g colorC1.g) ∧
    (min colorC0.b colorC1.b ≤ (colorScaleAt (domainHi input : ℚ) c).b ∧
      (colorScaleAt (domainHi input : ℚ) c).b ≤ max colorC0.b colorC1.b) := by
  have h0 : (0 : ℚ) ≤ max 0 (min 1 (c / (domainHi input : ℚ))) := le_max_left _ _
  have h1 : max 0 (min 1 (c / (domainHi input : ℚ))) ≤ 1 :=
    max_le (by norm_num) (min_le_left _ _)
  exact ⟨interpolate_between _ _ _ h0 h1, interpolate_between _ _ _ h0 h1,
    interpolate_between _ _ _ h0 h1⟩

/-! ## C6: hover exclusivity -/

/-- C6: the hover state holds at most one cell by construction; entering a
cell sets it to exactly that cell, leaving sets it to `none`, and two enters
without a leave keep only the second cell. -/
theorem claim_C6_hover_exclusive :
    (∀ (s : HoverState) (d h c : Nat), hoverStep s (.mouseEnter d h c) = some ⟨d, h, c⟩) ∧
    (∀ s : HoverState, hoverStep s .mouseLeave = none) ∧
    (∀ (s : HoverState) (dA hA cA dB hB cB : Nat),
      hoverStep (hoverStep s (.mouseEnter dA hA cA)) (.mouseEnter dB hB cB) =
        some ⟨dB, hB, cB⟩) :=
  ⟨fun _ _ _ _ => rfl, fun _ => rfl, fun _ _ _ _ _ _ _ => rfl⟩

/-! ## C7: hover state across data changes -/

/-- C7 counterexample: on a mounted instance, hovering a cell and then
supplying a different data prop leaves the hover state set — it is not reset
to `none` when the input data changes. -/
theorem claim_C7_counterexample :
    (componentStep (componentStep (mountComponent (some propA)) (.mouseEnter 0 9 5))
        (.updateProps (some propB))).hoveredCell = some ⟨0, 9, 5⟩ ∧
    (componentStep (componentStep (mountComponent (some propA)) (.mouseEnter 0 9 5))
        (.updateProps (some propB))).hoveredCell ≠ none ∧
    (some propA : Option RhythmProp) ≠ some propB := by
  refine ⟨rfl, ?_, ?_⟩
  · intro h
    cases h
  · decide

/-- C7 amended: the hover state is `none` when the component mounts and is
mutated only by the pointer handlers; a re-render with a new data prop
leaves it unchanged (reset happens only through a remount). -/
theorem claim_C7_amended :
    (∀ p, (mountComponent p).hoveredCell = none) ∧
    (∀ s p, (componentStep s (.updateProps p)).hoveredCell = s.hoveredCell) ∧
    (∀ (s : ComponentState) (d h c : Nat),
      (componentStep s (.mouseEnter d h c)).hoveredCell = some ⟨d, h, c⟩) ∧
    (∀ s : ComponentState, (componentStep s .mouseLeave).hoveredCell = none) :=
  ⟨fun _ => rfl, fun _ _ => rfl, fun _ _ _ _ => rfl, fun _ => rfl⟩

/-! ## C8: tooltip anchor -/

/-- C8: for any hovered cell the tooltip anchor x is the cell's horizontal
center and its y is strictly above the cell's top edge, in the same absolute
coordinates as the cells; with no hover the positioner yields `none`. -/
theorem claim_C8_tooltip :
    (∀ cell : RhythmCell,
      renderTooltip (some cell) =
        some (cellLeft cell.hour + CELL_SIZE / 2, cellTop cell.day - 10) ∧
      cellTop cell.day - 10 < cellTop cell.day) ∧
    renderTooltip none = none := by
  refine ⟨fun cell => ⟨rfl, ?_⟩, rfl⟩
  have h : (0 : ℚ) < 10 := by norm_num
  linarith

/-! ## C9: hour-axis labels -/

/-- C9 counterexample: the label for hour 0 sits at
`Y_AXIS_WIDTH + 0 * (CELL_SIZE + CELL_PADDING) + CELL_SIZE / 2`, which is not
the column's horizontal start `Y_AXIS_WIDTH + 0 * (CELL_SIZE + CELL_PADDING)`. -/
theorem claim_C9_counterexample :
    (0, Y_AXIS_WIDTH + (0 : ℚ) * (CELL_SIZE + CELL_PADDING) + CELL_SIZE / 2) ∈ xAxisLabels ∧
    Y_AXIS_WIDTH + (0 : ℚ) * (CELL_SIZE + CELL_PADDING) + CELL_SIZE / 2 ≠
      Y_AXIS_WIDTH + (0 : ℚ) * (CELL_SIZE + CELL_PADDING) := by
  constructor
  · unfold xAxisLabels
    rw [List.mem_filterMap]
    exact ⟨0, by decide, rfl⟩
  · rw [Y_AXIS_WIDTH, CELL_SIZE, CELL_PADDING]
    norm_num

/-- C9 amended: hour labels are produced exactly for the hours divisible by
3, and each is positioned at the horizontal center of its column,
`Y_AXIS_WIDTH + hour * (CELL_SIZE + CELL_PADDING) + CELL_SIZE / 2`. -/
theorem claim_C9_amended :
    xAxisLabels.map Prod.fst = (List.range 24).filter (fun h => h % 3 == 0) ∧
    ∀ p ∈ xAxisLabels,
      p.2 = Y_AXIS_WIDTH + (p.1 : ℚ) * (CELL_SIZE + CELL_PADDING) + CELL_SIZE / 2 := by
  constructor
  · rfl
  · intro p hp
    unfold xAxisLabels at hp
    rw [List.mem_filterMap] at hp
    obtain ⟨a, _, hfa⟩ := hp
    by_cases h3 : (a % 3 == 0) = true
    · rw [if_pos h3] at hfa
      cases hfa
      rfl
    · rw [if_neg h3] at hfa
      cases hfa

/-- C9 amended, witness: the hour-0 label is in the list and carries the
column-center position. -/
theorem claim_C9_amended_witness :
    (0, Y_AXIS_WIDTH + (0 : ℚ) * (CELL_SIZE + CELL_PADDING) + CELL_SIZE / 2) ∈ xAxisLabels ∧
    Y_AXIS_WIDTH + (0 : ℚ) * (CELL_SIZE + CELL_PADDING) + CELL_SIZE / 2 =
      Y_AXIS_WIDTH + (((0 : Nat) : ℚ)) * (CELL_SIZE + CELL_PADDING) + CELL_SIZE / 2 := by
  have hmem :
      (0, Y_AXIS_WIDTH + (0 : ℚ) * (CELL_SIZE + CELL_PADDING) + CELL_SIZE / 2) ∈ xAxisLabels := by
    unfold xAxisLabels
    rw [List.mem_filterMap]
    exact ⟨0, by decide, rfl⟩
  exact ⟨hmem, claim_C9_amended.2 _ hmem⟩

/-! ## C1: the dense 168-cell grid -/

theorem renderCells_pairs (input : RawRhythmInput) :
    (renderCells input).map (fun c => (c.day, c.hour)) = gridPairs := rfl

set_option maxRecDepth 4000 in
theorem renderCells_length (input : RawRhythmInput) :
    (renderCells input).length = 168 := by
  have h : ((renderCells input).map (fun c => (c.day, c.hour))).length = 168 := by
    rw [renderCells_pairs]
    decide
  rwa [List.length_map] at h

set_option maxRecDepth 8000 in
theorem renderCells_pairs_nodup (input : RawRhythmInput) :
    ((renderCells input).map (fun c => (c.day, c.hour))).Nodup := by
  rw [renderCells_pairs]
  decide

theorem mem_renderCells (input : RawRhythmInput) (day hour : Nat)
    (hd : day < 7) (hh : hour < 24) :
    (⟨day, hour, cellCount input day hour⟩ : RhythmCell) ∈ renderCells input := by
  rw [renderCells, List.mem_bind]
  exact ⟨day, List.mem_range.mpr hd,
    List.mem_map.mpr ⟨hour, List.mem_range.mpr hh, rfl⟩⟩

theorem mapGet_hmapOf_nodup (dk : Int) (hs : List (Int × Nat)) (h : Int)
    (hnd : (hs.map (·.1)).Nodup) :
    mapGet (hmapOf dk hs) (dk - 1, h) = (hs.find? (fun he => he.1 == h)).map (·.2) := by
  rw [mapGet]
  induction hs with
  | nil => rfl
  | cons he hs ih =>
      rw [List.map_cons, List.nodup_cons] at hnd
      show mapGetFrom
          (if ((dk - 1, he.1) : Int × Int) = (dk - 1, h) then some he.2 else none)
          (hmapOf dk hs) (dk - 1, h) = _
      by_cases hkey : he.1 = h
      · rw [if_pos (by rw [hkey])]
        rw [mapGetFrom_no_match]
        · rw [List.find?_cons_of_pos _ (by simp [hkey])]
          rfl
        · intro e hemem
          rw [hmapOf, List.mem_map] at hemem
          obtain ⟨hen, hhen, rfl⟩ := hemem
          intro hcon
          have h2 : hen.1 = h := congrArg Prod.snd hcon
          exact hnd.1 (hkey ▸ h2 ▸ List.mem_map_of_mem (·.1) hhen)
      · rw [if_neg (by intro hcon; exact hkey (congrArg Prod.snd hcon))]
        rw [List.find?_cons_of_neg _ (by simp [hkey])]
        exact ih hnd.2

theorem mapGetFrom_pdm_no_day (input : RawRhythmInput) (d h : Int)
    (hd : ∀ en ∈ input, en.1 ≠ d + 1) (acc : Option Nat) :
    mapGetFrom acc (processedDataMap input) (d, h) = acc := by
  apply mapGetFrom_no_match
  intro e he hek
  obtain ⟨en, henmem, hen2, _, rfl⟩ := mem_processedDataMap input e he
  apply hd en henmem
  have h1 : en.1 - 1 = d := congrArg Prod.fst hek
  omega

theorem mapGet_pdm_eq_inputLookup (d h : Int) :
    ∀ input : RawRhythmInput, (input.map (·.1)).Nodup →
      (∀ e ∈ input, (e.2.map (·.1)).Nodup) →
      mapGet (processedDataMap input) (d, h) = inputLookup input (d + 1) h := by
  intro input
  induction input with
  | nil => intro _ _; rfl
  | cons e input ih =>
      intro hnd hh
      rw [List.map_cons, List.nodup_cons] at hnd
      have hstep : mapGet (processedDataMap (e :: input)) (d, h) =
          mapGetFrom (mapGet (hmapOf e.1 e.2) (d, h)) (processedDataMap input) (d, h) := by
        rw [mapGet, processedDataMap_cons, mapGetFrom_append]
        rfl
      by_cases hde : e.1 = d + 1
      · have hnotail : ∀ en ∈ input, en.1 ≠ d + 1 := by
          intro en hen hcon
          exact hnd.1 (hde ▸ hcon ▸ List.mem_map_of_mem (·.1) hen)
        rw [hstep, mapGetFrom_pdm_no_day input d h hnotail]
        have hd1 : d = e.1 - 1 := by omega
        rw [inputLookup, List.find?_cons_of_pos _ (by simp [hde])]
        rw [hd1, mapGet_hmapOf_nodup e.1 e.2 h (hh e (List.mem_cons_self e input))]
      · have hnone : mapGet (hmapOf e.1 e.2) (d, h) = none := by
          apply mapGetFrom_no_match
          intro x hx hcon
          rw [hmapOf, List.mem_map] at hx
          obtain ⟨hen, _, rfl⟩ := hx
          have h1 : e.1 - 1 = d := congrArg Prod.fst hcon
          exact hde (by omega)
        rw [hstep, hnone]
        rw [inputLookup, List.find?_cons_of_neg _ (by simp [hde])]
        have := ih hnd.2 (fun x hx => hh x (List.mem_cons_of_mem e hx))
        rw [mapGet] at this
        rw [this, inputLookup]

theorem cellCount_eq_inputLookup (input : RawRhythmInput) (hv : ValidInput input)
    (day hour : Nat) :
    cellCount input day hour =
      (inputLookup input ((day : Int) + 1) (hour : Int)).getD 0 := by
  rw [cellCount,
    mapGet_pdm_eq_inputLookup (day : Int) (hour : Int) input hv.days_nodup hv.hours_nodup]

/-- C1: for a valid input the render pass yields exactly 168 cells with
pairwise distinct (day, hour) coordinates, and for each day in 0..6 and hour
in 0..23 the grid contains the cell whose count is the input's count under
day key day+1 and hour key hour, or 0 when that pair is absent. -/
theorem claim_C1_dense_grid (input : RawRhythmInput) (hv : ValidInput input) :
    (renderCells input).length = 168 ∧
    ((renderCells input).map (fun c => (c.day, c.hour))).Nodup ∧
    ∀ day hour : Nat, day < 7 → hour < 24 →
      (⟨day, hour, (inputLookup input ((day : Int) + 1) (hour : Int)).getD 0⟩ :
        RhythmCell) ∈ renderCells input := by
  refine ⟨renderCells_length input, renderCells_pairs_nodup input, ?_⟩
  intro day hour hd hh
  rw [← cellCount_eq_inputLookup input hv day hour]
  exact mem_renderCells input day hour hd hh

/-- C1 witness: the scenario input with a single entry under day key 1 and
hour key 9 is valid, and the cell (0, 9) of its grid carries that count. -/
theorem claim_C1_dense_grid_witness :
    (renderCells exInput).length = 168 ∧
    ((renderCells exInput).map (fun c => (c.day, c.hour))).Nodup ∧
    (⟨0, 9, (inputLookup exInput (((0 : Nat) : Int) + 1) ((9 : Nat) : Int)).getD 0⟩ :
      RhythmCell) ∈ renderCells exInput := by
  have h := claim_C1_dense_grid exInput ⟨by decide, by decide, by decide, by decide⟩
  exact ⟨h.1, h.2.1, h.2.2 0 9 (by decide) (by decide)⟩

/-! ## C5: no validation of parsed day/hour keys -/

/-- C5 counterexample: for the input with day key 8 (outside 1..7) the
component neither fails nor falls back — it renders the full 168-cell
widget, so binning does not fail with any error for out-of-range keys. -/
theorem claim_C5_counterexample :
    dayInRange 8 = false ∧
    rendersWidget (reviewRhythm (some ⟨some badDayInput⟩) none) = true ∧
    (renderCells badDayInput).length = 168 := by
  refine ⟨by decide, rfl, renderCells_length badDayInput⟩

/-- C5 amended: binning never fails — the code performs no range validation
on parsed day/hour keys, and any non-empty data object (out-of-range keys
included) renders the full 168-cell widget. -/
theorem claim_C5_amended (input : RawRhythmInput) (hne : input ≠ [])
    (hov : HoverState) :
    rendersWidget (reviewRhythm (some ⟨some input⟩) hov) = true ∧
    (renderCells input).length = 168 := by
  cases input with
  | nil => exact absurd rfl hne
  | cons e rest => exact ⟨rfl, renderCells_length (e :: rest)⟩

/-- C5 amended, witness: the out-of-range input is non-empty and renders the
full widget. -/
theorem claim_C5_amended_witness :
    badDayInput ≠ [] ∧
    rendersWidget (reviewRhythm (some ⟨some badDayInput⟩) none) = true ∧
    (renderCells badDayInput).length = 168 := by
  have hne : badDayInput ≠ [] := by decide
  have h := claim_C5_amended badDayInput hne none
  exact ⟨hne, h.1, h.2⟩

/-! ## C10: out-of-range entries and the color domain -/

theorem init_le_foldl_max (l : List Nat) (a : Nat) : a ≤ l.foldl max a := by
  induction l generalizing a with
  | nil => exact le_refl a
  | cons y l ih => exact le_trans (le_max_left a y) (ih (max a y))

theorem le_foldl_max (l : List Nat) :
    ∀ a x : Nat, x ∈ l → x ≤ l.foldl max a := by
  induction l with
  | nil => intro _ _ hx; cases hx
  | cons y l ih =>
      intro a x hx
      rcases List.mem_cons.mp hx with rfl | hx2
      · exact le_trans (le_max_right a x) (init_le_foldl_max l (max a x))
      · exact ih (max a y) x hx2

theorem foldl_max_le (l : List Nat) :
    ∀ a c : Nat, a ≤ c → (∀ x ∈ l, x ≤ c) → l.foldl max a ≤ c := by
  induction l with
  | nil => intro a c ha _; exact ha
  | cons y l ih =>
      intro a c ha h
      exact ih (max a y) c (max_le ha (h y (List.mem_cons_self y l)))
        (fun x hx => h x (List.mem_cons_of_mem y hx))

theorem mem_allCounts_le_maxValue (input : RawRhythmInput) (c : Nat)
    (hc : c ∈ allCounts input) : c ≤ maxValue input := by
  rw [maxValue_eq_foldl]
  exact le_foldl_max _ 0 c hc

theorem hmapOf_cons (dk : Int) (he : Int × Nat) (hs : List (Int × Nat)) :
    hmapOf dk (he :: hs) = ((dk - 1, he.1), he.2) :: hmapOf dk hs := rfl

theorem mapGetFrom_hmapOf_hour_filter (dk : Int) (d h : Int)
    (hh : 0 ≤ h ∧ h ≤ 23) :
    ∀ (hs : List (Int × Nat)) (acc : Option Nat),
      mapGetFrom acc (hmapOf dk (hs.filter (fun he => hourInRange he.1))) (d, h) =
      mapGetFrom acc (hmapOf dk hs) (d, h) := by
  intro hs
  induction hs with
  | nil => intro acc; rfl
  | cons he hs ih =>
      intro acc
      by_cases hr : hourInRange he.1 = true
      · simp only [List.filter_cons]
        rw [if_pos hr, hmapOf_cons, hmapOf_cons, mapGetFrom_cons, mapGetFrom_cons]
        exact ih _
      · simp only [List.filter_cons]
        rw [if_neg (by simp [hr])]
        have hne : ((dk - 1, he.1) : Int × Int) ≠ (d, h) := by
          intro hcon
          have h2 : he.1 = h := congrArg Prod.snd hcon
          rw [hourInRange] at hr
          simp only [Bool.and_eq_true, decide_eq_true_eq] at hr
          omega
        rw [hmapOf_cons, mapGetFrom_cons, if_neg hne]
        exact ih acc

theorem mapGetFrom_inRangeEntries (d h : Int)
    (hd : 0 ≤ d ∧ d ≤ 6) (hh : 0 ≤ h ∧ h ≤ 23) :
    ∀ (input : RawRhythmInput) (acc : Option Nat),
      mapGetFrom acc (processedDataMap (inRangeEntries input)) (d, h) =
      mapGetFrom acc (processedDataMap input) (d, h) := by
  intro input
  induction input with
  | nil => intro acc; rfl
  | cons e input ih =>
      intro acc
      rw [processedDataMap_cons, mapGetFrom_append]
      by_cases hde : dayInRange e.1 = true
      · have hcons : inRangeEntries (e :: input) =
            (e.1, e.2.filter (fun he => hourInRange he.1)) :: inRangeEntries input := by
          rw [inRangeEntries]
          simp only [List.filter_cons]
          rw [if_pos hde]
          rfl
        rw [hcons, processedDataMap_cons, mapGetFrom_append]
        rw [show hmapOf (e.1, e.2.filter (fun he => hourInRange he.1)).1
              (e.1, e.2.filter (fun he => hourInRange he.1)).2 =
            hmapOf e.1 (e.2.filter (fun he => hourInRange he.1)) from rfl]
        rw [mapGetFrom_hmapOf_hour_filter e.1 d h hh e.2 acc]
        exact ih _
      · have hcons : inRangeEntries (e :: input) = inRangeEntries input := by
          rw [inRangeEntries]
          simp only [List.filter_cons]
          rw [if_neg (by simp [hde])]
          rfl
        have hacc : mapGetFrom acc (hmapOf e.1 e.2) (d, h) = acc := by
          apply mapGetFrom_no_match
          intro x hx hcon
          rw [hmapOf, List.mem_map] at hx
          obtain ⟨hen, _, rfl⟩ := hx
          have h1 : e.1 - 1 = d := congrArg Prod.fst hcon
          rw [dayInRange] at hde
          simp only [Bool.and_eq_true, decide_eq_true_eq] at hde
          omega
        rw [hcons, hacc]
        exact ih acc

theorem cellCount_inRangeEntries (input : RawRhythmInput) (day hour : Nat)
    (hd : day < 7) (hh : hour < 24) :
    cellCount input day hour = cellCount (inRangeEntries input) day hour := by
  rw [cellCount, cellCount, mapGet, mapGet]
  rw [mapGetFrom_inRangeEntries ((day : Int)) ((hour : Int))
    (by constructor <;> omega) (by constructor <;> omega) input none]

/-- C10 counterexample: in the input with entries only under the
out-of-range day keys 8 and 9 (counts 5 and 7), the count 5 exceeds every
in-range count (there are none), yet the color-domain maximum is 7, not 5 —
so "if c exceeds every in-range count, maxCount equals c" fails as stated. -/
theorem claim_C10_counterexample :
    ((8 : Int), [((0 : Int), (5 : Nat))]) ∈ badPairInput ∧
    ((0 : Int), (5 : Nat)) ∈ [((0 : Int), (5 : Nat))] ∧
    dayInRange 8 = false ∧
    (∀ x ∈ allCounts (inRangeEntries badPairInput), x < 5) ∧
    domainHi badPairInput ≠ 5 := by
  decide

/-- C10 amended: an entry stored under an out-of-range day or hour key never
reaches any of the 168 rendered cells (the rendered counts coincide with
those of the input restricted to in-range entries), yet its count still
participates in the domain maximum: it bounds maxValue from below, and when
it is at least 1 and at least every count in the input, the color-domain
maximum equals it. -/
theorem claim_C10_amended (input : RawRhythmInput) (dk hk : Int)
    (hs : List (Int × Nat)) (c : Nat)
    (hmem : (dk, hs) ∈ input) (hmemh : (hk, c) ∈ hs)
    (_hout : dayInRange dk = false ∨ hourInRange hk = false) :
    (∀ day hour : Nat, day < 7 → hour < 24 →
      cellCount input day hour = cellCount (inRangeEntries input) day hour) ∧
    c ≤ maxValue input ∧
    (1 ≤ c → (∀ x ∈ allCounts input, x ≤ c) → domainHi input = c) := by
  have hcmem : c ∈ allCounts input := by
    rw [allCounts, List.mem_bind]
    exact ⟨(dk, hs), hmem, List.mem_map.mpr ⟨(hk, c), hmemh, rfl⟩⟩
  refine ⟨fun day hour hd hh => cellCount_inRangeEntries input day hour hd hh, ?_, ?_⟩
  · exact mem_allCounts_le_maxValue input c hcmem
  · intro h1 hmax
    have hle : maxValue input ≤ c := by
      rw [maxValue_eq_foldl]
      exact foldl_max_le _ 0 c (Nat.zero_le c) hmax
    have hge : c ≤ maxValue input := mem_allCounts_le_maxValue input c hcmem
    rw [domainHi]
    omega

/-- C10 amended, witness: in the mixed input the invisible out-of-range
entry of count 10 leaves the rendered cells those of the in-range entries
but stretches the color-domain maximum to 10. -/
theorem claim_C10_amended_witness :
    cellCount mixedInput 0 9 = cellCount (inRangeEntries mixedInput) 0 9 ∧
    10 ≤ maxValue mixedInput ∧
    domainHi mixedInput = 10 := by
  have h := claim_C10_amended mixedInput 8 0 [(0, 10)] 10 (by decide) (by decide)
    (Or.inl (by decide))
  exact ⟨h.1 0 9 (by decide) (by decide), h.2.1, h.2.2 (by decide) (by decide)⟩
